import Mathlib

/-!
Verification of the indxr entry-extraction and tag-aggregation pipeline
(`src/indxr/parser.py`, `src/indxr/generators/master_index.py`,
`src/indxr/generators/compact_index.py`) against its specification.

The Python code is shallowly embedded: regex matches are represented by
their capture-group lists, Python exceptions by an explicit error type,
and the insertion-ordered dictionaries by association lists.
-/

deriving instance DecidableEq for Except

namespace Indxr

/-- The Python exception classes that the embedded code can raise. -/
inductive PyErr where
  | valueError
  | indexError
  | typeError
  deriving DecidableEq

/-- Embeds the `SlideEntry` dataclass of `parser.py`.  `match.group(i)`
returns `Optional[str]` in Python and the dataclass stores whatever it is
given, so the page and title fields are `Option String`. -/
structure SlideEntry where
  book_number : Int
  page_number : Option String
  slide_title : Option String
  tags : List String
  deriving DecidableEq

/-- Numeric value of an ASCII digit character. -/
def digitVal (c : Char) : Nat := c.toNat - 48

/-- Digits of a Python integer literal after the first digit: a run of
digits in which single underscores may appear between digits. -/
def pyDigitsAux : Nat → List Char → Option Nat
  | acc, [] => some acc
  | acc, c :: cs =>
    if c.isDigit then pyDigitsAux (acc * 10 + digitVal c) cs
    else if c = '_' then
      match cs with
      | c2 :: cs2 => if c2.isDigit then pyDigitsAux (acc * 10 + digitVal c2) cs2 else none
      | [] => none
    else none

/-- Nonempty digit run (with optional internal underscores), as accepted by
Python `int` after sign and whitespace stripping. -/
def pyDigits : List Char → Option Nat
  | [] => none
  | c :: cs => if c.isDigit then pyDigitsAux (digitVal c) cs else none

/-- Leading and trailing whitespace stripped, as `int` does to its argument. -/
def pyStrip (s : String) : List Char :=
  ((s.toList.dropWhile Char.isWhitespace).reverse.dropWhile Char.isWhitespace).reverse

/-- Embeds Python `int(s)` on a `str` argument (ASCII digits): strip
whitespace, allow one sign, then a nonempty digit run; `none` models the
`ValueError` raised on anything else. -/
def pyInt (s : String) : Option Int :=
  match pyStrip s with
  | '-' :: rest => (pyDigits rest).map (fun n => -(n : Int))
  | '+' :: rest => (pyDigits rest).map (fun n => (n : Int))
  | cs => (pyDigits cs).map (fun n => (n : Int))

/-- `page_str.split('-')[0]`: the part of the token before the first hyphen. -/
def splitHyphenHead (s : String) : String :=
  String.mk (s.toList.takeWhile (fun c => c ≠ '-'))

/-- Embeds `_parse_page_num` (identical code in `master_index.py` lines 62-70
and `compact_index.py` lines 59-67).  The hyphen branch sits outside the
`try`, so a failing `int` there raises `ValueError`; only the no-hyphen
branch catches `ValueError` and falls back to `0`. -/
def parsePageNum (s : String) : Except PyErr Int :=
  if '-' ∈ s.toList then
    match pyInt (splitHyphenHead s) with
    | some n => Except.ok n
    | none => Except.error PyErr.valueError
  else
    match pyInt s with
    | some n => Except.ok n
    | none => Except.ok 0

/-- `_parse_page_num` applied to a stored page field; `'-' in None` raises
`TypeError` in Python. -/
def parsePageNumObj : Option String → Except PyErr Int
  | some s => parsePageNum s
  | none => Except.error PyErr.typeError

/-- Characters matched by the `[\w\-]` class of the tag regex (ASCII). -/
def isTagChar (c : Char) : Bool := c.isAlphanum || c = '_' || c = '-'

/-- The scanner behind `findallTags`, driven by a fuel that is an upper
bound on the list length (so the fuel never runs out on a nonempty list).
A match of `#[\w\-]+` starts exactly at a `#` directly followed by a
word/hyphen character and extends over the maximal run of such characters;
at any other position the scan advances one character. -/
def findallTagsAux : Nat → List Char → List String
  | _, [] => []
  | 0, _ :: _ => []
  | _ + 1, [_] => []
  | fuel + 1, c :: d :: ds =>
    if c = '#' ∧ isTagChar d = true then
      String.mk ('#' :: d :: ds.takeWhile isTagChar) ::
        findallTagsAux fuel (ds.dropWhile isTagChar)
    else findallTagsAux fuel (d :: ds)

/-- Embeds `re.findall(r'#[\w\-]+', tags_str)`: scan left to right; at each
`#` followed by at least one word/hyphen character take the maximal run as
one token, then continue after it; otherwise advance one character. -/
def findallTags (l : List Char) : List String := findallTagsAux l.length l

/-- A regex match, represented by the values of its capture groups `1..n`:
`none` is a group that did not participate in the match. -/
abbrev RawMatch := List (Option String)

/-- Embeds `match.group(i)` for `i ≥ 1`: the group's value, or an
`IndexError` when the pattern has no group `i`. -/
def mgroup (m : RawMatch) (i : Nat) : Except PyErr (Option String) :=
  if h : 1 ≤ i ∧ i ≤ m.length then Except.ok (m.get ⟨i - 1, by omega⟩)
  else Except.error PyErr.indexError

/-- Embeds `int(g)` on a capture-group value: `ValueError` on an unparsable
string, `TypeError` on `None`. -/
def pyIntObj : Option String → Except PyErr Int
  | some s =>
    match pyInt s with
    | some n => Except.ok n
    | none => Except.error PyErr.valueError
  | none => Except.error PyErr.typeError

/-- Embeds the body of the per-match `try` block of `IndexParser.parse`
(`parser.py` lines 56-71): read groups 1-4 in order, coerce the book number
with `int`, keep the page token and title as stored, and extract the tags
with `re.findall` (which raises `TypeError` on a `None` tag block). -/
def buildEntry (m : RawMatch) : Except PyErr SlideEntry :=
  match mgroup m 1 with
  | Except.error er => Except.error er
  | Except.ok g1 =>
    match pyIntObj g1 with
    | Except.error er => Except.error er
    | Except.ok book =>
      match mgroup m 2 with
      | Except.error er => Except.error er
      | Except.ok g2 =>
        match mgroup m 3 with
        | Except.error er => Except.error er
        | Except.ok g3 =>
          match mgroup m 4 with
          | Except.error er => Except.error er
          | Except.ok none => Except.error PyErr.typeError
          | Except.ok (some tagsSrc) =>
            Except.ok { book_number := book, page_number := g2, slide_title := g3,
                        tags := findallTags tagsSrc.toList }

/-- The entry a single match contributes, if any. -/
def matchedEntry (m : RawMatch) : Option SlideEntry :=
  match buildEntry m with
  | Except.ok e => some e
  | Except.error _ => none

/-- The exception classes named in `except (IndexError, ValueError)`. -/
def isSkippable : PyErr → Bool
  | PyErr.indexError => true
  | PyErr.valueError => true
  | PyErr.typeError => false

/-- Embeds the match loop of `IndexParser.parse` (lines 55-76) running over
the matches `ms` with the accumulated `self.entries` list `acc`: a match
whose construction raises `IndexError` or `ValueError` is skipped, any
other exception propagates, and the final `self.entries` is returned. -/
def parseFrom : List RawMatch → List SlideEntry → Except PyErr (List SlideEntry)
  | [], acc => Except.ok acc
  | m :: ms, acc =>
    match buildEntry m with
    | Except.ok e => parseFrom ms (acc ++ [e])
    | Except.error er =>
      if isSkippable er then parseFrom ms acc else Except.error er

/-- `parse()` on a freshly constructed parser (`self.entries` starts empty). -/
def processMatches (ms : List RawMatch) : Except PyErr (List SlideEntry) :=
  parseFrom ms []

/-- `n` successive `parse()` calls on one parser instance whose file yields
the matches `ms`: each call starts from the previous `self.entries` and
returns the updated list. -/
def iterParse (ms : List RawMatch) : Nat → Except PyErr (List SlideEntry)
  | 0 => Except.ok []
  | n + 1 =>
    match iterParse ms n with
    | Except.ok st => parseFrom ms st
    | Except.error er => Except.error er

/-- The per-book mapping: a Python dict in insertion order, embedded as an
association list from book number to the book's entry list. -/
abbrev BookMap := List (Int × List SlideEntry)

/-- Embeds the grouping step of `parse_multiple` (lines 98-101): create the
book's list on first encounter, then append. -/
def updateAdd (m : BookMap) (e : SlideEntry) : BookMap :=
  if m.any (fun p => p.1 == e.book_number) then
    m.map (fun p => if p.1 == e.book_number then (p.1, p.2 ++ [e]) else p)
  else m ++ [(e.book_number, [e])]

/-- Grouping a list of entries into a per-book mapping, starting empty. -/
def groupEntries (es : List SlideEntry) : BookMap :=
  es.foldl updateAdd []

/-- Embeds `IndexParser.parse_multiple` (lines 90-106).  Each file is
represented by the outcome of constructing a parser and calling `parse()`
on it: `none` when `FileNotFoundError`/`IOError` was raised (the file is
skipped with a warning), `some es` when `parse()` returned the entries
`es`.  A fresh parser is constructed per file. -/
def parseMultiple (files : List (Option (List SlideEntry))) : BookMap :=
  files.foldl
    (fun acc f =>
      match f with
      | none => acc
      | some es => es.foldl updateAdd acc)
    []

/-- Dictionary lookup, with `[]` for an absent book. -/
def lookupBook (m : BookMap) (b : Int) : List SlideEntry :=
  match m.find? (fun p => p.1 == b) with
  | some p => p.2
  | none => []

/-- Embeds `tag_map[tag].append(entry)` on the `defaultdict(list)` of
`_build_tag_index`: the bucket is created at the end on first access. -/
def addTag (tm : List (String × List SlideEntry)) (t : String) (e : SlideEntry) :
    List (String × List SlideEntry) :=
  if tm.any (fun p => p.1 == t) then
    tm.map (fun p => if p.1 == t then (p.1, p.2 ++ [e]) else p)
  else tm ++ [(t, [e])]

/-- The population loop of `_build_tag_index` (`master_index.py` lines
49-54, identical in `compact_index.py`): iterate books in mapping order,
entries in book order, tags in entry order. -/
def rawTagMap (allEntries : BookMap) : List (String × List SlideEntry) :=
  allEntries.foldl
    (fun tm p => p.2.foldl (fun tm e => e.tags.foldl (fun tm t => addTag tm t e) tm) tm)
    []

/-- The numeric page value used inside the sort key; the fallback `0` is
never reached on buckets whose keys all computed (see `sortBucket`). -/
def pageVal (e : SlideEntry) : Int :=
  match parsePageNumObj e.page_number with
  | Except.ok n => n
  | Except.error _ => 0

/-- The order induced by Python's tuple key
`(e.book_number, _parse_page_num(e.page_number))`. -/
def keyR (a b : SlideEntry) : Prop :=
  a.book_number < b.book_number ∨
    (a.book_number = b.book_number ∧ pageVal a ≤ pageVal b)

instance keyRDecidable (a b : SlideEntry) : Decidable (keyR a b) := by
  unfold keyR; infer_instance

/-- Boolean form of `keyR`. -/
def keyLe (a b : SlideEntry) : Bool := decide (keyR a b)

/-- Stable insertion of `x` into `l`: `x` goes in front of the first
element it is `le`-below-or-equal, hence after every earlier element with
an equal key. -/
def insertS (le : α → α → Bool) (x : α) : List α → List α
  | [] => [x]
  | y :: ys => if le x y then x :: y :: ys else y :: insertS le x ys

/-- Stable insertion sort; for a total preorder `le` its output is the
unique stable `le`-sorted permutation, which is what Python's stable
`list.sort(key=...)` produces. -/
def isortS (le : α → α → Bool) : List α → List α
  | [] => []
  | x :: xs => insertS le x (isortS le xs)

/-- Embeds `tag_map[tag].sort(key=lambda e: (e.book_number,
self._parse_page_num(e.page_number)))` for one bucket: Python computes the
key of every element (raising at the first failure) and then stable-sorts
by that key. -/
def sortBucket (l : List SlideEntry) : Except PyErr (List SlideEntry) :=
  match l.findSome?
      (fun e =>
        match parsePageNumObj e.page_number with
        | Except.error er => some er
        | Except.ok _ => none) with
  | some er => Except.error er
  | none => Except.ok (isortS keyLe l)

/-- The sorting loop of `_build_tag_index` (lines 57-58): sort the buckets
in mapping order, stopping at the first key error. -/
def sortBuckets :
    List (String × List SlideEntry) → Except PyErr (List (String × List SlideEntry))
  | [] => Except.ok []
  | p :: ps =>
    match sortBucket p.2 with
    | Except.error er => Except.error er
    | Except.ok l =>
      match sortBuckets ps with
      | Except.error er => Except.error er
      | Except.ok rest => Except.ok ((p.1, l) :: rest)

/-- Embeds `MasterIndexGenerator._build_tag_index` (lines 47-60; the code in
`CompactIndexGenerator` is identical). -/
def buildTagIndex (allEntries : BookMap) :
    Except PyErr (List (String × List SlideEntry)) :=
  sortBuckets (rawTagMap allEntries)

/-- One element of the `top_tags` statistic. -/
structure TagStat where
  tag : String
  count : Nat
  books : Nat
  deriving DecidableEq

/-- The dictionary returned by `get_statistics`. -/
structure Stats where
  total_books : Nat
  total_slides : Nat
  total_tags : Nat
  top_tags : List TagStat
  deriving DecidableEq

/-- The comparison realised by `sorted(..., key=lambda x: len(x[1]),
reverse=True)`: stable descending bucket size. -/
def statLe (p q : String × List SlideEntry) : Bool :=
  decide (q.2.length ≤ p.2.length)

/-- `len(set(e.book_number for e in entries))`. -/
def distinctBooks (es : List SlideEntry) : Nat :=
  (es.map (fun e => e.book_number)).dedup.length

/-- Embeds `MasterIndexGenerator.get_statistics` (lines 212-229). -/
def getStatistics (allEntries : BookMap)
    (tagIndex : List (String × List SlideEntry)) : Stats :=
  { total_books := allEntries.length
    total_slides := (allEntries.map (fun p => p.2.length)).sum
    total_tags := tagIndex.length
    top_tags :=
      ((isortS statLe tagIndex).map
        (fun p => { tag := p.1, count := p.2.length, books := distinctBooks p.2 })).take 20 }

/-- A capture-group list in which groups 1-4 participated, as every match
of the default pattern (whose four groups are all mandatory) has. -/
def WellGrouped (m : RawMatch) : Prop :=
  ∃ s1 s2 s3 s4 rest,
    m = some s1 :: some s2 :: some s3 :: some s4 :: rest

/-- A token of the tag sub-language `#[\w\-]+`. -/
def IsTagTok (t : List Char) : Prop :=
  ∃ body, t = '#' :: body ∧ body ≠ [] ∧ ∀ c ∈ body, isTagChar c = true

/-- The strings matched by the tag-block group
`#[\w\-]+(?:\s+#[\w\-]+)*` of the default pattern, together with the token
decomposition the regex engine assigns to them. -/
inductive SepTags : List Char → List (List Char) → Prop where
  | single (t : List Char) (ht : IsTagTok t) : SepTags t [t]
  | more (t ws rest : List Char) (toks : List (List Char)) (ht : IsTagTok t)
      (hne : ws ≠ []) (hws : ∀ c ∈ ws, c.isWhitespace = true)
      (hrest : SepTags rest toks) : SepTags (t ++ ws ++ rest) (t :: toks)

/-- Sample entry with a ranged page token. -/
def entryA : SlideEntry := ⟨1, some "120-121", some "Review", ["#a"]⟩

/-- Sample entry with a plain page token and two tags. -/
def entryB : SlideEntry := ⟨1, some "6", some "Intro", ["#a", "#b"]⟩

/-- A sample per-book mapping. -/
def sampleBooks : BookMap := [(1, [entryA, entryB])]

/-- The tag index built from `sampleBooks`. -/
def sampleIdx : List (String × List SlideEntry) :=
  [("#a", [entryB, entryA]), ("#b", [entryB])]

/-- The capture groups of a well-formed default-pattern match. -/
def goodMatch : RawMatch :=
  [some "1", some "6", some "Intro", some "#networking #basics"]

/-- Capture groups with a non-numeric book number. -/
def badMatch : RawMatch := [some "X", some "6", some "Bad", some "#x"]

/-- The entry `goodMatch` produces. -/
def goodEntry : SlideEntry := ⟨1, some "6", some "Intro", ["#networking", "#basics"]⟩

/-- The characters of the token `#networking`. -/
def tokNetworking : List Char := '#' :: "networking".toList

/-- The characters of the token `#basics`. -/
def tokBasics : List Char := '#' :: "basics".toList

/-- C1 counterexample: on the hyphenated token `"x-1"` the page-value
function raises `ValueError` instead of returning the claimed fallback `0`,
because `int(page_str.split('-')[0])` is evaluated outside the `try` block. -/
theorem parse_page_num_raises_cex :
    parsePageNum "x-1" = Except.error PyErr.valueError := by decide

/-- C1 (amended): if the token has no hyphen, the result is the parsed
integer, with `0` as the fallback on a parse failure, and no exception;
if the token has a hyphen, the result is the integer value of the substring
before the first hyphen when that substring is a valid integer literal,
and otherwise a `ValueError` escapes. -/
theorem parse_page_num_amended (s : String) :
    ('-' ∉ s.toList → parsePageNum s = Except.ok ((pyInt s).getD 0)) ∧
    ('-' ∈ s.toList → ∀ n : Int, pyInt (splitHyphenHead s) = some n →
      parsePageNum s = Except.ok n) ∧
    ('-' ∈ s.toList → pyInt (splitHyphenHead s) = none →
      parsePageNum s = Except.error PyErr.valueError) := by
  refine ⟨fun h => ?_, fun h n hn => ?_, fun h hn => ?_⟩
  · unfold parsePageNum
    rw [if_neg h]
    cases hp : pyInt s <;> simp [hp]
  · unfold parsePageNum
    rw [if_pos h, hn]
  · unfold parsePageNum
    rw [if_pos h, hn]

/-- Witness for the amended C1 statement at concrete tokens. -/
theorem parse_page_num_amended_witness :
    parsePageNum "120-121" = Except.ok 120 ∧
    parsePageNum "7" = Except.ok 7 ∧
    parsePageNum "abc" = Except.ok 0 := by
  refine ⟨(parse_page_num_amended "120-121").2.1 (by decide) 120 (by decide), ?_, ?_⟩
  · have h := (parse_page_num_amended "7").1 (by decide)
    rw [h]; decide
  · have h := (parse_page_num_amended "abc").1 (by decide)
    rw [h]; decide

theorem insertS_mem {α : Type} (le : α → α → Bool) (x z : α) :
    ∀ l : List α, z ∈ insertS le x l ↔ z = x ∨ z ∈ l := by
  intro l
  induction l with
  | nil => simp [insertS]
  | cons y ys ih =>
    unfold insertS
    by_cases h : le x y = true
    · rw [if_pos h]
      simp only [List.mem_cons]
    · rw [if_neg h]
      simp only [List.mem_cons, ih]
      tauto

theorem insertS_perm {α : Type} (le : α → α → Bool) (x : α) :
    ∀ l : List α, (insertS le x l).Perm (x :: l) := by
  intro l
  induction l with
  | nil => exact List.Perm.refl _
  | cons y ys ih =>
    unfold insertS
    by_cases h : le x y = true
    · rw [if_pos h]
    · rw [if_neg h]
      exact (ih.cons y).trans (List.Perm.swap x y ys)

theorem isortS_perm {α : Type} (le : α → α → Bool) :
    ∀ l : List α, (isortS le l).Perm l := by
  intro l
  induction l with
  | nil => exact List.Perm.refl _
  | cons x xs ih => exact (insertS_perm le x (isortS le xs)).trans (ih.cons x)

theorem insertS_sorted {α : Type} (le : α → α → Bool)
    (tot : ∀ a b, le a b = true ∨ le b a = true)
    (tr : ∀ a b c, le a b = true → le b c = true → le a c = true) (x : α) :
    ∀ l : List α, l.Pairwise (fun a b => le a b = true) →
      (insertS le x l).Pairwise (fun a b => le a b = true) := by
  intro l
  induction l with
  | nil => intro _; simp [insertS]
  | cons y ys ih =>
    intro hp
    rw [List.pairwise_cons] at hp
    obtain ⟨hy, hys⟩ := hp
    unfold insertS
    by_cases h : le x y = true
    · rw [if_pos h, List.pairwise_cons]
      refine ⟨?_, List.pairwise_cons.mpr ⟨hy, hys⟩⟩
      intro z hz
      rcases List.mem_cons.mp hz with heq | hz
      · rw [heq]; exact h
      · exact tr x y z h (hy z hz)
    · rw [if_neg h, List.pairwise_cons]
      refine ⟨?_, ih hys⟩
      intro z hz
      rcases (insertS_mem le x z ys).mp hz with heq | hz
      · rw [heq]
        rcases tot x y with h' | h'
        · exact absurd h' h
        · exact h'
      · exact hy z hz

theorem isortS_sorted {α : Type} (le : α → α → Bool)
    (tot : ∀ a b, le a b = true ∨ le b a = true)
    (tr : ∀ a b c, le a b = true → le b c = true → le a c = true) :
    ∀ l : List α, (isortS le l).Pairwise (fun a b => le a b = true) := by
  intro l
  induction l with
  | nil => simp [isortS]
  | cons x xs ih => exact insertS_sorted le tot tr x _ ih

theorem filter_insertS_pos {α : Type} (le : α → α → Bool) (q : α → Bool) (x : α)
    (hx : q x = true) (hle : ∀ y, q y = true → le x y = true) :
    ∀ l : List α, (insertS le x l).filter q = x :: l.filter q := by
  intro l
  induction l with
  | nil => simp [insertS, hx]
  | cons y ys ih =>
    unfold insertS
    by_cases h : le x y = true
    · rw [if_pos h]
      simp [List.filter_cons, hx]
    · rw [if_neg h]
      have hqy : q y = false := by
        cases hq : q y
        · rfl
        · exact absurd (hle y hq) h
      simp [List.filter_cons, hqy, ih]

theorem filter_insertS_neg {α : Type} (le : α → α → Bool) (q : α → Bool) (x : α)
    (hx : q x = false) :
    ∀ l : List α, (insertS le x l).filter q = l.filter q := by
  intro l
  induction l with
  | nil => simp [insertS, hx]
  | cons y ys ih =>
    unfold insertS
    by_cases h : le x y = true
    · rw [if_pos h]
      simp [List.filter_cons, hx]
    · rw [if_neg h]
      simp [List.filter_cons, ih]

theorem filter_isortS {α : Type} (le : α → α → Bool) (q : α → Bool)
    (hq : ∀ x y, q x = true → q y = true → le x y = true) :
    ∀ l : List α, (isortS le l).filter q = l.filter q := by
  intro l
  induction l with
  | nil => rfl
  | cons x xs ih =>
    show (insertS le x (isortS le xs)).filter q = _
    cases hx : q x
    · rw [filter_insertS_neg le q x hx, ih]
      simp [List.filter_cons, hx]
    · rw [filter_insertS_pos le q x hx (fun y hy => hq x y hx hy), ih]
      simp [List.filter_cons, hx]

theorem keyLe_total (a b : SlideEntry) : keyLe a b = true ∨ keyLe b a = true := by
  simp only [keyLe, decide_eq_true_eq]
  unfold keyR
  omega

theorem keyLe_trans (a b c : SlideEntry) (h1 : keyLe a b = true)
    (h2 : keyLe b c = true) : keyLe a c = true := by
  simp only [keyLe, decide_eq_true_eq] at h1 h2 ⊢
  unfold keyR at h1 h2 ⊢
  omega

theorem sortBucket_ok (raw bucket : List SlideEntry)
    (h : sortBucket raw = Except.ok bucket) : bucket = isortS keyLe raw := by
  unfold sortBucket at h
  cases hf : raw.findSome?
      (fun e =>
        match parsePageNumObj e.page_number with
        | Except.error er => some er
        | Except.ok _ => none) with
  | some er => rw [hf] at h; simp at h
  | none =>
    rw [hf] at h
    simp only [Except.ok.injEq] at h
    exact h.symm

theorem sortBuckets_mem :
    ∀ (l out : List (String × List SlideEntry)), sortBuckets l = Except.ok out →
      ∀ (t : String) (bucket : List SlideEntry), (t, bucket) ∈ out →
        ∃ raw, (t, raw) ∈ l ∧ sortBucket raw = Except.ok bucket := by
  intro l
  induction l with
  | nil =>
    intro out h t bucket hb
    simp only [sortBuckets, Except.ok.injEq] at h
    rw [← h] at hb
    simp at hb
  | cons p ps ih =>
    intro out h t bucket hb
    simp only [sortBuckets] at h
    cases hs : sortBucket p.2 with
    | error er => rw [hs] at h; simp at h
    | ok lsorted =>
      rw [hs] at h
      cases hrest : sortBuckets ps with
      | error er => rw [hrest] at h; simp at h
      | ok rest =>
        rw [hrest] at h
        simp only [Except.ok.injEq] at h
        rw [← h] at hb
        rcases List.mem_cons.mp hb with heq | hmem
        · refine ⟨p.2, ?_, ?_⟩
          · have ht : t = p.1 := congrArg Prod.fst heq
            rw [ht]
            exact List.mem_cons_self _ _
          · have hbk : bucket = lsorted := congrArg Prod.snd heq
            rw [hbk]
            exact hs
        · obtain ⟨raw, hraw, hsb⟩ := ih rest hrest t bucket hmem
          exact ⟨raw, List.mem_cons_of_mem _ hraw, hsb⟩

/-- C3: every bucket of a successfully built tag index is a permutation of
the corresponding insertion-order bucket, non-decreasing in the pair
`(book_number, numeric page value)` (the value of a ranged token being its
lower bound), and entries with equal keys keep their relative insertion
order. -/
theorem tag_buckets_sorted_stable (ae : BookMap)
    (idx : List (String × List SlideEntry)) (h : buildTagIndex ae = Except.ok idx)
    (t : String) (bucket : List SlideEntry) (hb : (t, bucket) ∈ idx) :
    ∃ raw, (t, raw) ∈ rawTagMap ae ∧
      bucket.Perm raw ∧
      bucket.Pairwise (fun a b => a.book_number < b.book_number ∨
        (a.book_number = b.book_number ∧ pageVal a ≤ pageVal b)) ∧
      ∀ bk pv : Int,
        bucket.filter (fun e => decide (e.book_number = bk ∧ pageVal e = pv))
          = raw.filter (fun e => decide (e.book_number = bk ∧ pageVal e = pv)) := by
  obtain ⟨raw, hraw, hsb⟩ := sortBuckets_mem (rawTagMap ae) idx h t bucket hb
  have hbucket := sortBucket_ok raw bucket hsb
  refine ⟨raw, hraw, ?_, ?_, ?_⟩
  · rw [hbucket]
    exact isortS_perm keyLe raw
  · have hs := isortS_sorted keyLe keyLe_total keyLe_trans raw
    rw [hbucket]
    refine hs.imp ?_
    intro a b hab
    have := of_decide_eq_true hab
    exact this
  · intro bk pv
    rw [hbucket]
    apply filter_isortS
    intro x y hx hy
    have hx' := of_decide_eq_true hx
    have hy' := of_decide_eq_true hy
    simp only [keyLe, decide_eq_true_eq]
    unfold keyR
    omega

/-- Witness for C3 on a concrete mapping: the `#a` bucket of the sample
index is the sorted, stable rearrangement of its insertion-order bucket. -/
theorem tag_buckets_sorted_stable_witness :
    ∃ raw, (("#a", raw) ∈ rawTagMap sampleBooks) ∧
      List.Perm [entryB, entryA] raw ∧
      List.Pairwise (fun a b => a.book_number < b.book_number ∨
        (a.book_number = b.book_number ∧ pageVal a ≤ pageVal b)) [entryB, entryA] ∧
      ∀ bk pv : Int,
        List.filter (fun e => decide (e.book_number = bk ∧ pageVal e = pv)) [entryB, entryA]
          = raw.filter (fun e => decide (e.book_number = bk ∧ pageVal e = pv)) :=
  tag_buckets_sorted_stable sampleBooks sampleIdx (by decide) "#a" [entryB, entryA]
    (by decide)

theorem lookupBook_updateAdd (m : BookMap) (e : SlideEntry) (b : Int) :
    lookupBook (updateAdd m e) b
      = lookupBook m b ++ (if e.book_number = b then [e] else []) := by
  unfold updateAdd lookupBook
  by_cases hmem : m.any (fun p => p.1 == e.book_number) = true
  · rw [if_pos hmem, List.find?_map]
    have hpf : ((fun p : Int × List SlideEntry => p.1 == b) ∘
        (fun p => if p.1 == e.book_number then (p.1, p.2 ++ [e]) else p))
        = (fun p : Int × List SlideEntry => p.1 == b) := by
      funext p
      by_cases hp : (p.1 == e.book_number) = true
      · simp [Function.comp, hp]
      · simp [Function.comp, hp]
    rw [hpf]
    cases hf : m.find? (fun p => p.1 == b) with
    | none =>
      by_cases hb : e.book_number = b
      · exfalso
        rcases List.any_eq_true.mp hmem with ⟨p, hp, hpe⟩
        have hpb : (fun p : Int × List SlideEntry => p.1 == b) p = true := by
          simp only [beq_iff_eq] at hpe ⊢
          omega
        exact absurd hpb (List.find?_eq_none.mp hf p hp)
      · simp [hb]
    | some q =>
      have hq := List.find?_some hf
      simp only [beq_iff_eq] at hq
      by_cases hqe : (q.1 == e.book_number) = true
      · have hb : e.book_number = b := by
          simp only [beq_iff_eq] at hqe
          omega
        simp [hqe, hb, hq]
      · have hb : ¬ e.book_number = b := by
          simp only [beq_iff_eq] at hqe
          omega
        simp only [Option.map_some']
        rw [if_neg hqe]
        simp [hb]
  · rw [if_neg hmem, List.find?_append]
    cases hf : m.find? (fun p => p.1 == b) with
    | some q =>
      have hq := List.find?_some hf
      simp only [beq_iff_eq] at hq
      have hqm : q ∈ m := List.mem_of_find?_eq_some hf
      have hb : ¬ e.book_number = b := by
        intro hcontra
        apply hmem
        refine List.any_eq_true.mpr ⟨q, hqm, ?_⟩
        simp only [beq_iff_eq]
        omega
      simp [Option.or, hb]
    | none =>
      by_cases hb : e.book_number = b
      · simp [Option.or, hb]
      · simp [Option.or, hb]

theorem lookupBook_foldl (es : List SlideEntry) :
    ∀ (m : BookMap) (b : Int),
      lookupBook (es.foldl updateAdd m) b
        = lookupBook m b ++ es.filter (fun e => e.book_number == b) := by
  induction es with
  | nil => intro m b; simp
  | cons e es ih =>
    intro m b
    simp only [List.foldl_cons]
    rw [ih, lookupBook_updateAdd]
    by_cases hb : e.book_number = b
    · simp [List.filter_cons, hb]
    · simp [List.filter_cons, hb]

theorem parseMultiple_foldl :
    ∀ (files : List (Option (List SlideEntry))) (m : BookMap),
      files.foldl
        (fun acc f =>
          match f with
          | none => acc
          | some es => es.foldl updateAdd acc) m
        = ((files.filterMap id).flatten).foldl updateAdd m := by
  intro files
  induction files with
  | nil => intro m; simp
  | cons f fs ih =>
    intro m
    cases f with
    | none => simp [List.filterMap_cons, ih]
    | some es => simp [List.filterMap_cons, List.foldl_append, ih]

/-- C4: in the mapping built by `parse_multiple`, each book's list is
exactly the concatenation of the matching entries of the readable files in
file-list order — in particular `[A, B]` gives, for each book, `A`'s
entries followed by `B`'s, with nothing overwritten, dropped, or deduped. -/
theorem multi_file_merge_order :
    (∀ (files : List (Option (List SlideEntry))) (b : Int),
      lookupBook (parseMultiple files) b
        = ((files.filterMap id).flatten).filter (fun e => e.book_number == b)) ∧
    (∀ (A B : List SlideEntry) (b : Int),
      lookupBook (parseMultiple [some A, some B]) b
        = A.filter (fun e => e.book_number == b)
          ++ B.filter (fun e => e.book_number == b)) := by
  have hgen : ∀ (files : List (Option (List SlideEntry))) (b : Int),
      lookupBook (parseMultiple files) b
        = ((files.filterMap id).flatten).filter (fun e => e.book_number == b) := by
    intro files b
    unfold parseMultiple
    rw [parseMultiple_foldl files [], lookupBook_foldl]
    rfl
  refine ⟨hgen, fun A B b => ?_⟩
  rw [hgen]
  simp [List.filter_append]

/-- C5: unreadable files (`none`) are skipped and the result is the
grouping of the entries of exactly the successfully parsed files; with no
readable file, or no match in any readable file, the result is the empty
mapping, returned normally. -/
theorem parse_multiple_partial_failure :
    (∀ files : List (Option (List SlideEntry)),
      parseMultiple files = groupEntries ((files.filterMap id).flatten)) ∧
    (∀ files : List (Option (List SlideEntry)),
      files.filterMap id = [] → parseMultiple files = []) ∧
    (∀ files : List (Option (List SlideEntry)),
      (files.filterMap id).flatten = [] → parseMultiple files = []) ∧
    (∀ (A : List SlideEntry) (rest : List (Option (List SlideEntry))),
      parseMultiple (some A :: none :: rest) = parseMultiple (some A :: rest)) := by
  have hgen : ∀ files : List (Option (List SlideEntry)),
      parseMultiple files = groupEntries ((files.filterMap id).flatten) := by
    intro files
    unfold parseMultiple groupEntries
    exact parseMultiple_foldl files []
  refine ⟨hgen, fun files h => ?_, fun files h => ?_, fun A rest => ?_⟩
  · rw [hgen, h]; rfl
  · rw [hgen, h]; rfl
  · rw [hgen, hgen]
    simp [List.filterMap_cons]

/-- Witness for C5: a batch of two unreadable files yields the empty
mapping, and a readable file followed by an unreadable one yields exactly
the readable file's grouping. -/
theorem parse_multiple_partial_failure_witness :
    parseMultiple [none, none] = []
      ∧ parseMultiple [some [entryA], none] = parseMultiple [some [entryA]] :=
  ⟨parse_multiple_partial_failure.2.1 [none, none] rfl,
   parse_multiple_partial_failure.2.2.2 [entryA] []⟩

theorem findallTagsAux_nil (fuel : Nat) : findallTagsAux fuel [] = [] := by
  cases fuel <;> rfl

theorem findallTagsAux_two (fuel : Nat) (c d : Char) (ds : List Char) :
    findallTagsAux (fuel + 1) (c :: d :: ds)
      = if c = '#' ∧ isTagChar d = true then
          String.mk ('#' :: d :: ds.takeWhile isTagChar)
            :: findallTagsAux fuel (ds.dropWhile isTagChar)
        else findallTagsAux fuel (d :: ds) := rfl

theorem findallTagsAux_irrel :
    ∀ (fuel1 fuel2 : Nat) (l : List Char), l.length ≤ fuel1 → l.length ≤ fuel2 →
      findallTagsAux fuel1 l = findallTagsAux fuel2 l := by
  intro fuel1
  induction fuel1 with
  | zero =>
    intro fuel2 l h1 h2
    have hl : l = [] := List.eq_nil_of_length_eq_zero (Nat.le_zero.mp h1)
    rw [hl, findallTagsAux_nil, findallTagsAux_nil]
  | succ f ih =>
    intro fuel2 l h1 h2
    cases l with
    | nil => rw [findallTagsAux_nil, findallTagsAux_nil]
    | cons c cs =>
      cases fuel2 with
      | zero => simp at h2
      | succ f2 =>
        cases cs with
        | nil => rfl
        | cons d ds =>
          rw [findallTagsAux_two f, findallTagsAux_two f2]
          simp only [List.length_cons] at h1 h2
          by_cases hcd : c = '#' ∧ isTagChar d = true
          · rw [if_pos hcd, if_pos hcd]
            congr 1
            have hds := (List.dropWhile_sublist isTagChar (l := ds)).length_le
            exact ih f2 _ (by omega) (by omega)
          · rw [if_neg hcd, if_neg hcd]
            exact ih f2 _ (by simp only [List.length_cons]; omega)
              (by simp only [List.length_cons]; omega)

theorem findallTags_cons_not_hash (c : Char) (cs : List Char) (hc : ¬ c = '#') :
    findallTags (c :: cs) = findallTags cs := by
  cases cs with
  | nil => rfl
  | cons d ds =>
    show findallTagsAux (ds.length + 1 + 1) (c :: d :: ds) = _
    rw [findallTagsAux_two]
    rw [if_neg (by intro hcd; exact hc hcd.1)]
    rfl

theorem findallTags_hash_tag (d : Char) (ds : List Char) (hd : isTagChar d = true) :
    findallTags ('#' :: d :: ds)
      = String.mk ('#' :: d :: ds.takeWhile isTagChar)
        :: findallTags (ds.dropWhile isTagChar) := by
  show findallTagsAux (ds.length + 1 + 1) ('#' :: d :: ds) = _
  rw [findallTagsAux_two]
  rw [if_pos ⟨rfl, hd⟩]
  congr 1
  have hds := (List.dropWhile_sublist isTagChar (l := ds)).length_le
  exact findallTagsAux_irrel _ _ _ (by omega) (Nat.le_refl _)

theorem findallTags_hash_not_tag (d : Char) (ds : List Char)
    (hd : isTagChar d = false) :
    findallTags ('#' :: d :: ds) = findallTags (d :: ds) := by
  show findallTagsAux (ds.length + 1 + 1) ('#' :: d :: ds) = _
  rw [findallTagsAux_two]
  rw [if_neg (by intro hcd; rw [hcd.2] at hd; exact Bool.true_eq_false.mp hd)]
  rfl

theorem parseFrom_cons_ok (m : RawMatch) (ms : List RawMatch) (e : SlideEntry)
    (hb : buildEntry m = Except.ok e) (acc : List SlideEntry) :
    parseFrom (m :: ms) acc = parseFrom ms (acc ++ [e]) := by
  simp [parseFrom, hb]

theorem parseFrom_cons_skip (m : RawMatch) (ms : List RawMatch) (er : PyErr)
    (hb : buildEntry m = Except.error er) (hs : isSkippable er = true)
    (acc : List SlideEntry) :
    parseFrom (m :: ms) acc = parseFrom ms acc := by
  simp [parseFrom, hb, hs]

theorem parseFrom_cons_raise (m : RawMatch) (ms : List RawMatch) (er : PyErr)
    (hb : buildEntry m = Except.error er) (hs : isSkippable er = false)
    (acc : List SlideEntry) :
    parseFrom (m :: ms) acc = Except.error er := by
  simp [parseFrom, hb, hs]

theorem matchedEntry_of_ok (m : RawMatch) (e : SlideEntry)
    (hb : buildEntry m = Except.ok e) : matchedEntry m = some e := by
  simp [matchedEntry, hb]

theorem matchedEntry_of_error (m : RawMatch) (er : PyErr)
    (hb : buildEntry m = Except.error er) : matchedEntry m = none := by
  simp [matchedEntry, hb]

theorem parseFrom_shift (ms : List RawMatch) :
    ∀ acc : List SlideEntry,
      parseFrom ms acc = (parseFrom ms []).map (fun l => acc ++ l) := by
  induction ms with
  | nil => intro acc; simp [parseFrom, Except.map]
  | cons m ms ih =>
    intro acc
    cases hb : buildEntry m with
    | ok e =>
      rw [parseFrom_cons_ok m ms e hb acc, parseFrom_cons_ok m ms e hb []]
      rw [ih (acc ++ [e]), ih ([] ++ [e])]
      cases hp : parseFrom ms [] with
      | ok l => simp [Except.map]
      | error er => simp [Except.map]
    | error er =>
      cases hs : isSkippable er with
      | true =>
        rw [parseFrom_cons_skip m ms er hb hs acc,
          parseFrom_cons_skip m ms er hb hs [], ih acc]
      | false =>
        rw [parseFrom_cons_raise m ms er hb hs acc,
          parseFrom_cons_raise m ms er hb hs []]
        rfl

theorem replicate_flatten_succ {α : Type} (n : Nat) (es : List α) :
    (List.replicate (n + 1) es).flatten = (List.replicate n es).flatten ++ es := by
  induction n with
  | zero => simp
  | succ n ih =>
    calc (List.replicate (n + 2) es).flatten
        = es ++ (List.replicate (n + 1) es).flatten := by
          simp [List.replicate_succ]
      _ = es ++ ((List.replicate n es).flatten ++ es) := by rw [ih]
      _ = (es ++ (List.replicate n es).flatten) ++ es := by rw [List.append_assoc]
      _ = (List.replicate (n + 1) es).flatten ++ es := by simp [List.replicate_succ]

/-- C10: `parse()` is not idempotent — on one parser instance each call
appends the file's matched entries to the accumulated `self.entries` and
returns it, so `n` successful calls return `n` concatenated copies; with at
least one matched entry, a second call no longer returns the single copy. -/
theorem parse_accumulates (ms : List RawMatch) (es : List SlideEntry) (n : Nat)
    (h : processMatches ms = Except.ok es) :
    iterParse ms n = Except.ok ((List.replicate n es).flatten) ∧
    (es ≠ [] → 2 ≤ n → iterParse ms n ≠ Except.ok es) := by
  have key : ∀ k, iterParse ms k = Except.ok ((List.replicate k es).flatten) := by
    intro k
    induction k with
    | zero => simp [iterParse]
    | succ k ih =>
      simp only [iterParse, ih]
      rw [parseFrom_shift]
      have hpm : parseFrom ms [] = Except.ok es := h
      rw [hpm]
      simp [Except.map, replicate_flatten_succ]
  refine ⟨key n, fun hne hn hcontra => ?_⟩
  rw [key n] at hcontra
  simp only [Except.ok.injEq] at hcontra
  have hlen : ∀ k, ((List.replicate k es).flatten).length = k * es.length := by
    intro k
    induction k with
    | zero => simp
    | succ k ih => rw [replicate_flatten_succ, List.length_append, ih]; ring
  have hl := congrArg List.length hcontra
  rw [hlen n] at hl
  have hpos : 0 < es.length := List.length_pos.mpr hne
  have h2 : 2 * es.length ≤ n * es.length := Nat.mul_le_mul_right _ hn
  omega

/-- Witness for C10: two calls on the same instance return the entry twice. -/
theorem parse_accumulates_witness :
    iterParse [goodMatch] 2 = Except.ok [goodEntry, goodEntry] := by
  have h := (parse_accumulates [goodMatch] [goodEntry] 2 (by decide)).1
  rw [h]
  decide

theorem mgroup_explicit (a b c d : Option String) (rest : List (Option String)) :
    mgroup (a :: b :: c :: d :: rest) 1 = Except.ok a ∧
    mgroup (a :: b :: c :: d :: rest) 2 = Except.ok b ∧
    mgroup (a :: b :: c :: d :: rest) 3 = Except.ok c ∧
    mgroup (a :: b :: c :: d :: rest) 4 = Except.ok d := by
  refine ⟨?_, ?_, ?_, ?_⟩ <;>
    · unfold mgroup
      rw [dif_pos (by simp only [List.length_cons]; omega)]
      rfl

theorem buildEntry_wellGrouped (s1 : String) (g2 g3 : Option String) (s4 : String)
    (rest : List (Option String)) :
    (∃ n, pyInt s1 = some n ∧
      buildEntry (some s1 :: g2 :: g3 :: some s4 :: rest)
        = Except.ok ⟨n, g2, g3, findallTags s4.toList⟩) ∨
    (pyInt s1 = none ∧
      buildEntry (some s1 :: g2 :: g3 :: some s4 :: rest)
        = Except.error PyErr.valueError) := by
  obtain ⟨h1, h2, h3, h4⟩ := mgroup_explicit (some s1) g2 g3 (some s4) rest
  unfold buildEntry
  rw [h1, h2, h3, h4]
  cases hp : pyInt s1 with
  | some n =>
    left
    exact ⟨n, rfl, by simp [pyIntObj, hp]⟩
  | none =>
    right
    exact ⟨rfl, by simp [pyIntObj, hp]⟩

/-- C7: over matches whose four capture groups all participated (as every
match of the default pattern's mandatory groups does), the parse loop never
raises: a match whose book-number capture fails `int` coercion is silently
dropped while the remaining matches still contribute, and every produced
entry carries its stored page token and title (no partial entry exists). -/
theorem parse_skips_malformed (ms : List RawMatch)
    (h : ∀ m ∈ ms, WellGrouped m) :
    processMatches ms = Except.ok (ms.filterMap matchedEntry) ∧
    ∀ e ∈ ms.filterMap matchedEntry,
      e.page_number.isSome = true ∧ e.slide_title.isSome = true := by
  constructor
  · induction ms with
    | nil => rfl
    | cons m ms ih =>
      have hm := h m (List.mem_cons_self _ _)
      have hrest : ∀ m' ∈ ms, WellGrouped m' :=
        fun m' hm' => h m' (List.mem_cons_of_mem _ hm')
      obtain ⟨s1, s2, s3, s4, rest, rfl⟩ := hm
      rcases buildEntry_wellGrouped s1 (some s2) (some s3) s4 rest with
        ⟨n, _, hok⟩ | ⟨_, herr⟩
      · show parseFrom _ [] = _
        rw [parseFrom_cons_ok _ ms _ hok [], parseFrom_shift]
        rw [show parseFrom ms [] = processMatches ms from rfl, ih hrest]
        rw [List.filterMap_cons, matchedEntry_of_ok _ _ hok]
        simp [Except.map]
      · show parseFrom _ [] = _
        rw [parseFrom_cons_skip _ ms _ herr rfl []]
        rw [show parseFrom ms [] = processMatches ms from rfl, ih hrest]
        rw [List.filterMap_cons, matchedEntry_of_error _ _ herr]
  · intro e he
    obtain ⟨m, hm, hme⟩ := List.mem_filterMap.mp he
    obtain ⟨s1, s2, s3, s4, rest, rfl⟩ := h m hm
    rcases buildEntry_wellGrouped s1 (some s2) (some s3) s4 rest with
      ⟨n, _, hok⟩ | ⟨_, herr⟩
    · unfold matchedEntry at hme
      rw [hok] at hme
      simp only [Option.some.injEq] at hme
      rw [← hme]
      exact ⟨rfl, rfl⟩
    · unfold matchedEntry at hme
      rw [herr] at hme
      simp at hme

/-- Witness for C7: a malformed match followed by a good one yields exactly
the good entry, with no exception. -/
theorem parse_skips_malformed_witness :
    processMatches [badMatch, goodMatch] = Except.ok [goodEntry] := by
  have hwg : ∀ m ∈ [badMatch, goodMatch], WellGrouped m := by
    intro m hm
    rcases List.mem_cons.mp hm with heq | hm
    · exact heq ▸ ⟨"X", "6", "Bad", "#x", [], rfl⟩
    · rcases List.mem_cons.mp hm with heq | hm
      · exact heq ▸ ⟨"1", "6", "Intro", "#networking #basics", [], rfl⟩
      · simp at hm
  have h := (parse_skips_malformed [badMatch, goodMatch] hwg).1
  rw [h]
  decide

/-- C2 evaluation: matches produced by a two-capture-group pattern make
`match.group(3)` raise `IndexError`, which the per-match handler swallows —
`parse` silently returns zero entries instead of failing fast with a
descriptive configuration error. -/
theorem wrong_arity_pattern_silent :
    processMatches [[some "1", some "6"], [some "2", some "9"]]
      = Except.ok [] := by decide

/-- C9: the pipeline is a pure function of its inputs — two runs of
`parse_multiple` on equal file lists give structurally equal mappings, and
rebuilding the tag index from the same mapping gives the same buckets. -/
theorem pipeline_deterministic (files1 files2 : List (Option (List SlideEntry)))
    (h : files1 = files2) (ae : BookMap) :
    parseMultiple files1 = parseMultiple files2 ∧
    buildTagIndex ae = buildTagIndex ae :=
  ⟨by rw [h], rfl⟩

/-- Witness for C9 at a concrete run. -/
theorem pipeline_deterministic_witness :
    parseMultiple [some [entryA]] = parseMultiple [some [entryA]] ∧
    buildTagIndex sampleBooks = buildTagIndex sampleBooks :=
  pipeline_deterministic [some [entryA]] [some [entryA]] rfl sampleBooks

theorem statLe_total (p q : String × List SlideEntry) :
    statLe p q = true ∨ statLe q p = true := by
  simp only [statLe, decide_eq_true_eq]
  omega

theorem statLe_trans (p q r : String × List SlideEntry) (h1 : statLe p q = true)
    (h2 : statLe q r = true) : statLe p r = true := by
  simp only [statLe, decide_eq_true_eq] at h1 h2 ⊢
  omega

theorem addTag_keys (tm : List (String × List SlideEntry)) (t : String)
    (e : SlideEntry) :
    (addTag tm t e).map Prod.fst
      = if tm.any (fun p => p.1 == t) then tm.map Prod.fst
        else tm.map Prod.fst ++ [t] := by
  unfold addTag
  by_cases h : tm.any (fun p => p.1 == t) = true
  · rw [if_pos h, if_pos h, List.map_map]
    congr 1
    funext p
    by_cases hp : (p.1 == t) = true
    · simp [Function.comp, hp]
    · simp [Function.comp, hp]
  · rw [if_neg h, if_neg h]
    simp

theorem addTag_keys_nodup (tm : List (String × List SlideEntry)) (t : String)
    (e : SlideEntry) (h : (tm.map Prod.fst).Nodup) :
    ((addTag tm t e).map Prod.fst).Nodup := by
  rw [addTag_keys]
  by_cases hmem : tm.any (fun p => p.1 == t) = true
  · rw [if_pos hmem]
    exact h
  · rw [if_neg hmem, List.nodup_append]
    refine ⟨h, List.nodup_singleton t, ?_⟩
    intro a ha hat
    simp only [List.mem_singleton] at hat
    rw [hat] at ha
    rcases List.mem_map.mp ha with ⟨p, hp, hpt⟩
    exact hmem (List.any_eq_true.mpr ⟨p, hp, by simp [hpt]⟩)

theorem foldl_tags_keys_nodup (ts : List String) (e : SlideEntry) :
    ∀ tm : List (String × List SlideEntry), (tm.map Prod.fst).Nodup →
      ((ts.foldl (fun tm t => addTag tm t e) tm).map Prod.fst).Nodup := by
  induction ts with
  | nil => intro tm h; exact h
  | cons t ts ih =>
    intro tm h
    exact ih _ (addTag_keys_nodup tm t e h)

theorem foldl_entries_keys_nodup (es : List SlideEntry) :
    ∀ tm : List (String × List SlideEntry), (tm.map Prod.fst).Nodup →
      ((es.foldl (fun tm e => e.tags.foldl (fun tm t => addTag tm t e) tm) tm).map
        Prod.fst).Nodup := by
  induction es with
  | nil => intro tm h; exact h
  | cons e es ih =>
    intro tm h
    exact ih _ (foldl_tags_keys_nodup e.tags e tm h)

theorem rawTagMap_keys_nodup (ae : BookMap) :
    ((rawTagMap ae).map Prod.fst).Nodup := by
  unfold rawTagMap
  have hfold : ∀ (l : BookMap) (tm : List (String × List SlideEntry)),
      (tm.map Prod.fst).Nodup →
      ((l.foldl (fun tm p =>
          p.2.foldl (fun tm e => e.tags.foldl (fun tm t => addTag tm t e) tm) tm)
        tm).map Prod.fst).Nodup := by
    intro l
    induction l with
    | nil => intro tm h; exact h
    | cons p ps ih =>
      intro tm h
      exact ih _ (foldl_entries_keys_nodup p.2 tm h)
  exact hfold ae [] (by simp)

theorem sortBuckets_keys :
    ∀ (l out : List (String × List SlideEntry)), sortBuckets l = Except.ok out →
      out.map Prod.fst = l.map Prod.fst := by
  intro l
  induction l with
  | nil =>
    intro out h
    simp only [sortBuckets, Except.ok.injEq] at h
    rw [← h]
  | cons p ps ih =>
    intro out h
    simp only [sortBuckets] at h
    cases hs : sortBucket p.2 with
    | error er => rw [hs] at h; simp at h
    | ok lsorted =>
      rw [hs] at h
      cases hrest : sortBuckets ps with
      | error er => rw [hrest] at h; simp at h
      | ok rest =>
        rw [hrest] at h
        simp only [Except.ok.injEq] at h
        rw [← h]
        simp [ih rest hrest]

/-- C6: the statistics summary counts distinct books, total entries, and
distinct tags, and `top_tags` is at most 20 items in non-increasing bucket
size, each reporting a tag of the index with its occurrence count and its
number of distinct books (never exceeding the count). -/
theorem statistics_correct (ae : BookMap) (tagIdx : List (String × List SlideEntry))
    (hk : (ae.map Prod.fst).Nodup) (hidx : buildTagIndex ae = Except.ok tagIdx) :
    (getStatistics ae tagIdx).total_books = (ae.map Prod.fst).dedup.length ∧
    (getStatistics ae tagIdx).total_slides
      = (ae.map (fun p => p.2.length)).sum ∧
    (getStatistics ae tagIdx).total_tags = (tagIdx.map Prod.fst).dedup.length ∧
    (getStatistics ae tagIdx).top_tags.length = min 20 tagIdx.length ∧
    (getStatistics ae tagIdx).top_tags.Pairwise (fun a b => b.count ≤ a.count) ∧
    (∀ ts ∈ (getStatistics ae tagIdx).top_tags, ts.books ≤ ts.count) ∧
    (∀ ts ∈ (getStatistics ae tagIdx).top_tags, ∃ es, (ts.tag, es) ∈ tagIdx ∧
      ts.count = es.length ∧
      ts.books = (es.map (fun e => e.book_number)).dedup.length) := by
  have hkeys : tagIdx.map Prod.fst = (rawTagMap ae).map Prod.fst :=
    sortBuckets_keys (rawTagMap ae) tagIdx hidx
  have htagnodup : (tagIdx.map Prod.fst).Nodup := by
    rw [hkeys]
    exact rawTagMap_keys_nodup ae
  refine ⟨?_, rfl, ?_, ?_, ?_, ?_, ?_⟩
  · show ae.length = _
    rw [List.dedup_eq_self.mpr hk, List.length_map]
  · show tagIdx.length = _
    rw [List.dedup_eq_self.mpr htagnodup, List.length_map]
  · show (((isortS statLe tagIdx).map _).take 20).length = _
    rw [List.length_take, List.length_map, (isortS_perm statLe tagIdx).length_eq]
  · have hs := isortS_sorted statLe statLe_total statLe_trans tagIdx
    have hmapped : ((isortS statLe tagIdx).map
        (fun p => (⟨p.1, p.2.length, distinctBooks p.2⟩ : TagStat))).Pairwise
        (fun a b => b.count ≤ a.count) := by
      rw [List.pairwise_map]
      refine hs.imp ?_
      intro a b hab
      simp only [statLe, decide_eq_true_eq] at hab
      exact hab
    exact hmapped.sublist (List.take_sublist _ _)
  · intro ts hts
    have hmem := List.take_subset _ _ hts
    rcases List.mem_map.mp hmem with ⟨p, _, heq⟩
    rw [← heq]
    show distinctBooks p.2 ≤ p.2.length
    unfold distinctBooks
    calc ((p.2.map (fun e => e.book_number)).dedup).length
        ≤ (p.2.map (fun e => e.book_number)).length :=
          (List.dedup_sublist _).length_le
      _ = p.2.length := List.length_map _ _
  · intro ts hts
    have hmem := List.take_subset _ _ hts
    rcases List.mem_map.mp hmem with ⟨p, hp, heq⟩
    refine ⟨p.2, ?_, ?_, ?_⟩
    · have hpidx : p ∈ tagIdx := (isortS_perm statLe tagIdx).subset hp
      rw [← heq]
      simpa using hpidx
    · rw [← heq]
    · rw [← heq]
      rfl

/-- Witness for C6 on the sample index: the truncation length is as stated. -/
theorem statistics_correct_witness :
    (getStatistics sampleBooks sampleIdx).top_tags.length
      = min 20 sampleIdx.length :=
  (statistics_correct sampleBooks sampleIdx (by decide) (by decide)).2.2.2.1

theorem whitespace_not_tagChar (c : Char) (h : c.isWhitespace = true) :
    isTagChar c = false := by
  simp only [Char.isWhitespace, Bool.or_eq_true, decide_eq_true_eq] at h
  rcases h with ((h | h) | h) | h <;> (subst h; decide)

theorem whitespace_ne_hash (c : Char) (h : c.isWhitespace = true) : ¬ c = '#' := by
  intro heq
  rw [heq] at h
  exact absurd h (by decide)

theorem takeWhile_append_all {α : Type} (p : α → Bool) :
    ∀ (l1 l2 : List α), (∀ a ∈ l1, p a = true) →
      (l2 = [] ∨ ∃ b t, l2 = b :: t ∧ p b = false) →
      (l1 ++ l2).takeWhile p = l1 ∧ (l1 ++ l2).dropWhile p = l2 := by
  intro l1
  induction l1 with
  | nil =>
    intro l2 _ h2
    rcases h2 with rfl | ⟨b, t, rfl, hb⟩
    · exact ⟨rfl, rfl⟩
    · constructor
      · simp [List.takeWhile_cons, hb]
      · simp [List.dropWhile_cons, hb]
  | cons a l1 ih =>
    intro l2 h1 h2
    have ha := h1 a (List.mem_cons_self _ _)
    obtain ⟨ht, hd⟩ := ih l2 (fun x hx => h1 x (List.mem_cons_of_mem _ hx)) h2
    constructor
    · simp only [List.cons_append, List.takeWhile_cons, ha, if_true, ht]
    · simp only [List.cons_append, List.dropWhile_cons, ha, if_true, hd]

theorem findallTags_ws (ws rest : List Char)
    (h : ∀ c ∈ ws, c.isWhitespace = true) :
    findallTags (ws ++ rest) = findallTags rest := by
  induction ws with
  | nil => rfl
  | cons w ws ih =>
    have hw := h w (List.mem_cons_self _ _)
    show findallTags (w :: (ws ++ rest)) = _
    rw [findallTags_cons_not_hash w _ (whitespace_ne_hash w hw)]
    exact ih (fun c hc => h c (List.mem_cons_of_mem _ hc))

theorem findallTags_token (b : Char) (bs rest : List Char)
    (hb : isTagChar b = true) (hbs : ∀ c ∈ bs, isTagChar c = true)
    (hrest : rest = [] ∨ ∃ w t, rest = w :: t ∧ isTagChar w = false) :
    findallTags (('#' :: b :: bs) ++ rest)
      = String.mk ('#' :: b :: bs) :: findallTags rest := by
  show findallTags ('#' :: b :: (bs ++ rest)) = _
  rw [findallTags_hash_tag b (bs ++ rest) hb]
  obtain ⟨ht, hd⟩ := takeWhile_append_all isTagChar bs rest hbs hrest
  rw [ht, hd]

theorem sepTags_findall {s : List Char} {toks : List (List Char)}
    (h : SepTags s toks) :
    findallTags s = toks.map (fun t => String.mk t) := by
  induction h with
  | single t ht =>
    obtain ⟨body, rfl, hne, hall⟩ := ht
    obtain ⟨b, bs, rfl⟩ := List.exists_cons_of_ne_nil hne
    have hmk := findallTags_token b bs [] (hall b (List.mem_cons_self _ _))
      (fun c hc => hall c (List.mem_cons_of_mem _ hc)) (Or.inl rfl)
    simp only [List.append_nil] at hmk
    rw [hmk]
    rfl
  | more t ws rest toks ht hne hws hrest ih =>
    obtain ⟨body, rfl, hbne, hall⟩ := ht
    obtain ⟨b, bs, rfl⟩ := List.exists_cons_of_ne_nil hbne
    obtain ⟨w, wt, rfl⟩ := List.exists_cons_of_ne_nil hne
    have hwv := hws w (List.mem_cons_self _ _)
    rw [List.append_assoc]
    rw [findallTags_token b bs ((w :: wt) ++ rest)
      (hall b (List.mem_cons_self _ _))
      (fun c hc => hall c (List.mem_cons_of_mem _ hc))
      (Or.inr ⟨w, wt ++ rest, rfl, whitespace_not_tagChar w hwv⟩)]
    rw [findallTags_ws (w :: wt) rest hws, ih]
    rfl

theorem sepTags_ne_nil {s : List Char} {toks : List (List Char)}
    (h : SepTags s toks) : toks ≠ [] := by
  cases h <;> simp

theorem sepTags_all_tok {s : List Char} {toks : List (List Char)}
    (h : SepTags s toks) : ∀ t ∈ toks, IsTagTok t := by
  induction h with
  | single t ht =>
    intro x hx
    rw [List.mem_singleton.mp hx]
    exact ht
  | more t ws rest toks ht hne hws hrest ih =>
    intro x hx
    rcases List.mem_cons.mp hx with heq | hx
    · rw [heq]; exact ht
    · exact ih x hx

theorem buildEntry_tags (m : RawMatch) (e : SlideEntry) (s4 : String)
    (hok : buildEntry m = Except.ok e) (hg4 : mgroup m 4 = Except.ok (some s4)) :
    e.tags = findallTags s4.toList := by
  unfold buildEntry at hok
  split at hok
  · simp at hok
  · split at hok
    · simp at hok
    · split at hok
      · simp at hok
      · split at hok
        · simp at hok
        · split at hok
          · simp at hok
          · simp at hok
          · rename_i tagsSrc heq4
            rw [hg4] at heq4
            simp only [Except.ok.injEq, Option.some.injEq] at heq4
            simp only [Except.ok.injEq] at hok
            rw [← hok, heq4]

/-- C8: for an entry built from a match whose tag-block capture matches the
default pattern's group `#[\w\-]+(?:\s+#[\w\-]+)*`, the tags list is
exactly that group's token sequence — nonempty, in source order, each token
a `#` followed by one or more word/hyphen characters, with duplicates
preserved. -/
theorem default_pattern_tags (m : RawMatch) (e : SlideEntry) (s4 : String)
    (toks : List (List Char)) (hok : buildEntry m = Except.ok e)
    (hg4 : mgroup m 4 = Except.ok (some s4)) (hsep : SepTags s4.toList toks) :
    e.tags = toks.map (fun t => String.mk t) ∧
    e.tags ≠ [] ∧
    ∀ tag ∈ e.tags, ∃ body, tag = String.mk ('#' :: body) ∧ body ≠ [] ∧
      ∀ c ∈ body, isTagChar c = true := by
  have htags : e.tags = findallTags s4.toList := buildEntry_tags m e s4 hok hg4
  have hfind := sepTags_findall hsep
  refine ⟨htags.trans hfind, ?_, ?_⟩
  · rw [htags, hfind]
    intro hcon
    exact sepTags_ne_nil hsep (List.map_eq_nil_iff.mp hcon)
  · intro tag htag
    rw [htags, hfind] at htag
    rcases List.mem_map.mp htag with ⟨tok, hmem, heq⟩
    obtain ⟨body, hbody, hbne, hall⟩ := sepTags_all_tok hsep tok hmem
    refine ⟨body, ?_, hbne, hall⟩
    rw [← heq, hbody]

theorem sample_sep :
    SepTags ("#networking #basics".toList) [tokNetworking, tokBasics] := by
  have h : "#networking #basics".toList = tokNetworking ++ [' '] ++ tokBasics := by
    decide
  rw [h]
  exact SepTags.more tokNetworking [' '] tokBasics [tokBasics]
    ⟨"networking".toList, rfl, by decide, by decide⟩
    (by decide) (by decide)
    (SepTags.single tokBasics ⟨"basics".toList, rfl, by decide, by decide⟩)

/-- Witness for C8: the entry built from `goodMatch` carries exactly the
two tag tokens of its tag block, in order. -/
theorem default_pattern_tags_witness :
    goodEntry.tags = ["#networking", "#basics"] := by
  have h := (default_pattern_tags goodMatch goodEntry "#networking #basics"
    [tokNetworking, tokBasics] (by decide) (by decide) sample_sep).1
  rw [h]
  decide

end Indxr
